import Mathlib

/-!
Shallow embedding of the `linesample` utility (random line sampling from a
text stream) and verification of its specification claims.

The embedding models:
* `sample_by_fraction` / `sample_by_number` / `sample_lines` from
  `src/linesample/linesample.py`;
* the near-duplicate functions `linesample_fraction`, `linesample_number`,
  `linesample` and `sample_lines` from `src/linesample/__init__.py`
  (namespace `Pkg`).

Input is modelled as a list of lines (each possibly carrying its trailing
newline, as produced by `fileinput.input`).  The stream of
`random.random()` values is modelled by a function `u : Nat → ℚ`; in
number mode `u n` is the value drawn while processing the line with
`lines_read = n`, in fraction mode `u i` is the value drawn for the line of
0-based arrival index `i`.  `ValidDraws u` states every draw lies in
`[0, 1)`, which is what `random.random()` guarantees.  Printing is
modelled by collecting the printed strings in a list; `print(line.strip())`
becomes `pyStrip`.
-/

namespace Linesample

/-- The characters removed by Python `str.strip()` (ASCII whitespace; the
lines handled by this program only contain ASCII whitespace at their ends). -/
def isPySpace (c : Char) : Bool :=
  c == ' ' || c == '\t' || c == '\n' || c == '\r' || c == '\x0b' || c == '\x0c'

/-- `line.strip()`: remove leading and trailing whitespace characters. -/
def pyStrip (s : String) : String :=
  ⟨((s.data.dropWhile isPySpace).reverse.dropWhile isPySpace).reverse⟩

/-- The draws of `random.random()` all lie in `[0, 1)`. -/
def ValidDraws (u : Nat → ℚ) : Prop :=
  ∀ n, 0 ≤ u n ∧ u n < 1

/-- Loop of `sample_by_fraction` (`linesample.py`): for each line, one draw;
the line is selected iff the draw is strictly below `fraction`.  The second
argument is the 0-based arrival index of the next line, used to address the
draw sequence. -/
def fractionLoop (fraction : ℚ) (u : Nat → ℚ) : List String → Nat → List String
  | [], _ => []
  | line :: rest, i =>
    if u i < fraction then line :: fractionLoop fraction u rest (i + 1)
    else fractionLoop fraction u rest (i + 1)

/-- `sample_by_fraction(infile, fraction)` from `linesample.py`: print each
selected line stripped. -/
def sample_by_fraction (fraction : ℚ) (u : Nat → ℚ) (lines : List String) :
    List String :=
  (fractionLoop fraction u lines 0).map pyStrip

/-- Loop of `sample_by_number` (`linesample.py`).  State: the list of lines
still to be read, `lines_read`, and `selected_lines`.  Each iteration
mirrors the Python body:

* `lines_read += 1`;
* if `len(selected_lines) < number`: append the line and continue;
* else `index = math.floor(random.random() * lines_read)`; if
  `index < number - 1`: `del selected_lines[index]` and append the line,
  otherwise leave the reservoir unchanged.

`number` is an `Int`, as in Python; `del` at the drawn index is
`List.eraseIdx` (whenever it is executed the index is in range, see the
length theorems below). -/
def numberLoop (number : Int) (u : Nat → ℚ) :
    List String → Nat → List String → List String
  | [], _, sel => sel
  | line :: rest, linesRead, sel =>
    let n := linesRead + 1
    if (sel.length : Int) < number then
      numberLoop number u rest n (sel ++ [line])
    else
      let index : Int := Int.floor (u n * (n : ℚ))
      if index < number - 1 then
        numberLoop number u rest n (sel.eraseIdx index.toNat ++ [line])
      else
        numberLoop number u rest n sel

/-- `sample_by_number(infile, number)` from `linesample.py`: run the
reservoir loop, then print every retained line stripped. -/
def sample_by_number (number : Int) (u : Nat → ℚ) (lines : List String) :
    List String :=
  (numberLoop number u lines 0 [] ).map pyStrip

/-- `sample_lines(infile, seed, fraction, number)` from `linesample.py`.
`random.seed(seed)` only affects the draw stream, which is already
abstracted by `u`.  A raised `ValueError` is `Except.error` with the
message; note the trailing `else` branch of the Python code is unreachable
(the first guard already handled `fraction is None and number is None`). -/
def sample_lines (u : Nat → ℚ) (fraction : Option ℚ) (number : Option Int)
    (lines : List String) : Except String (List String) :=
  if fraction = none ∧ number = none then
    Except.error "Either fraction or number must be given."
  else
    match fraction with
    | some f =>
      if f < 0 ∨ f > 1 then
        Except.error "Sampling fraction must be between 0 and 1"
      else
        Except.ok (sample_by_fraction f u lines)
    | none =>
      match number with
      | some n =>
        if n < 1 then
          Except.error "Number of lines must be a positive integer."
        else
          Except.ok (sample_by_number n u lines)
      | none =>
        Except.error "Only one of fraction or number may be given."

/-! The `__init__.py` near-duplicates. -/

namespace Pkg

/-- `linesample_fraction` from `__init__.py` is textually identical to
`sample_by_fraction` in `linesample.py`. -/
def linesample_fraction : ℚ → (Nat → ℚ) → List String → List String :=
  sample_by_fraction

/-- `linesample_number` from `__init__.py` is textually identical to
`sample_by_number` in `linesample.py`. -/
def linesample_number : Int → (Nat → ℚ) → List String → List String :=
  sample_by_number

/-- The Python `Union[int, float]` parameter of `linesample`, with its
runtime type tag (`type(param) == int`). -/
inductive PyParam where
  | int (n : Int)
  | float (q : ℚ)

/-- Numeric value of a `PyParam`, used by the order comparisons. -/
def PyParam.val : PyParam → ℚ
  | .int n => (n : ℚ)
  | .float q => q

/-- `linesample(infile, param)` from `__init__.py`:

* `param < 0` → `ValueError`;
* `0.0 < param < 1.0` → fraction mode;
* `type(param) == int` → number mode;
* otherwise → `ValueError`. -/
def linesample (u : Nat → ℚ) (param : PyParam) (lines : List String) :
    Except String (List String) :=
  if param.val < 0 then
    Except.error "Parameter must be nonnegative."
  else if 0 < param.val ∧ param.val < 1 then
    Except.ok (linesample_fraction param.val u lines)
  else
    match param with
    | .int n => Except.ok (linesample_number n u lines)
    | .float _ => Except.error "Parameter must be an integer if greater than 1."

/-- `sample_lines` from `__init__.py`: unlike the `linesample.py` version it
explicitly rejects supplying both parameters, then forwards
`param = fraction if fraction is not None else number` to `linesample`
(keeping the runtime type of the chosen parameter).  The final match arm is
unreachable: the first guard already handled both parameters being absent. -/
def sample_lines (u : Nat → ℚ) (fraction : Option ℚ) (number : Option Int)
    (lines : List String) : Except String (List String) :=
  if fraction = none ∧ number = none then
    Except.error "Either fraction or number must be given."
  else if fraction ≠ none ∧ number ≠ none then
    Except.error "Only one of fraction or number may be given."
  else
    match fraction, number with
    | some f, _ => linesample u (PyParam.float f) lines
    | none, some n => linesample u (PyParam.int n) lines
    | none, none => Except.error "Either fraction or number must be given."

end Pkg

/-- Written from the spec's words for comparison (refinement check of the
emission step): remove exactly the trailing line-ending characters of a
line, leaving every other character in place. -/
def specTrimTrailingEOL (s : String) : String :=
  ⟨(s.data.reverse.dropWhile (fun c => c == '\n' || c == '\r')).reverse⟩

/-- C1: the claim states the reservoir replaces an entry iff the drawn index
`j` satisfies `j < k`.  The code's condition is `index < number - 1`.
Evaluation at `k = 2`, input `a b c`, draw `u = 1/3` at the third line gives
`j = floor(1/3 * 3) = 1`: the claim demands a replacement (`1 < 2`, final
reservoir `[a, c]`), but the code discards the line (`1 < 1` is false) and
the reservoir stays `[a, b]`. -/
theorem C1_replace_condition_eval :
    numberLoop 2 (fun _ => (1 : ℚ)/3) ["a", "b", "c"] 0 [] = ["a", "b"] := by
  norm_num [numberLoop]

/-- C2: the claim states each of the `n` lines survives with probability
`k/n`.  With `k = 1` and input `a b`, the single draw has the two equally
likely outcomes `j = 0` (from `u = 0`) and `j = 1` (from `u = 1/2`), and the
code keeps the first line under both, so line `b` survives with probability
`0`, not `1/2`. -/
theorem C2_uniformity_eval :
    numberLoop 1 (fun _ => (0 : ℚ)) ["a", "b"] 0 [] = ["a"] ∧
    numberLoop 1 (fun _ => (1 : ℚ)/2) ["a", "b"] 0 [] = ["a"] := by
  constructor
  · norm_num [numberLoop]
  · norm_num [numberLoop]

/-- C5: the claim states the dispatcher raises a usage error when both
fraction and count are supplied.  The `linesample.py` version of
`sample_lines` instead silently runs fraction mode and reads the input (its
final `raise` is dead code), while the `__init__.py` duplicate does raise;
the neither-supplied case raises in the `linesample.py` version as claimed. -/
theorem C5_both_supplied_eval :
    sample_lines (fun _ => 0) (some ((1 : ℚ)/2)) (some 3) ["x\n"]
      = Except.ok ["x"] ∧
    Pkg.sample_lines (fun _ => 0) (some ((1 : ℚ)/2)) (some 3) ["x\n"]
      = Except.error "Only one of fraction or number may be given." ∧
    sample_lines (fun _ => 0) none none ["x\n"]
      = Except.error "Either fraction or number must be given." := by
  refine ⟨?_, by rfl, by rfl⟩
  rw [sample_lines, if_neg (by simp)]
  norm_num [sample_by_fraction, fractionLoop]
  decide

/-- C6: the claim states a supplied fraction is rejected iff it lies outside
`[0, 1]`, with the boundary values `0.0` and `1.0` accepted and routed to
the Bernoulli filter.  The `linesample.py` dispatcher behaves as claimed
(first three conjuncts), but the `__init__.py` path routes through
`linesample`, which raises on both boundary values `0.0` and `1.0` because
they are neither inside `(0, 1)` nor of type `int`. -/
theorem C6_boundary_fraction_eval :
    sample_lines (fun _ => 0) (some (0 : ℚ)) none ["x\n"] = Except.ok [] ∧
    sample_lines (fun _ => 0) (some (1 : ℚ)) none ["x\n"] = Except.ok ["x"] ∧
    sample_lines (fun _ => 0) (some ((3 : ℚ)/2)) none ["x\n"]
      = Except.error "Sampling fraction must be between 0 and 1" ∧
    Pkg.sample_lines (fun _ => 0) (some (0 : ℚ)) none ["x\n"]
      = Except.error "Parameter must be an integer if greater than 1." ∧
    Pkg.sample_lines (fun _ => 0) (some (1 : ℚ)) none ["x\n"]
      = Except.error "Parameter must be an integer if greater than 1." := by
  refine ⟨?_, ?_, ?_, ?_, ?_⟩
  · rw [sample_lines, if_neg (by simp)]
    norm_num [sample_by_fraction, fractionLoop]
  · rw [sample_lines, if_neg (by simp)]
    norm_num [sample_by_fraction, fractionLoop]
    decide
  · rw [sample_lines, if_neg (by simp)]
    norm_num
  · simp [Pkg.sample_lines, Pkg.linesample, Pkg.PyParam.val]
  · simp [Pkg.sample_lines, Pkg.linesample, Pkg.PyParam.val]

/-- C7: the claim states a supplied count is rejected for every value below
one and accepted from one upwards.  The `linesample.py` dispatcher behaves
as claimed (count `0` rejected, count `2` accepted), but the `__init__.py`
path accepts count `0`: `linesample` only rejects negative parameters, so
`0` reaches `linesample_number` and yields empty output instead of a usage
error. -/
theorem C7_zero_count_eval :
    sample_lines (fun _ => 0) none (some 0) ["x\n"]
      = Except.error "Number of lines must be a positive integer." ∧
    sample_lines (fun _ => 0) none (some 2) ["x\n"] = Except.ok ["x"] ∧
    Pkg.sample_lines (fun _ => 0) none (some 0) ["x\n"] = Except.ok [] ∧
    Pkg.sample_lines (fun _ => 0) none (some 2) ["x\n"] = Except.ok ["x"] := by
  refine ⟨by simp [sample_lines], ?_, ?_, ?_⟩
  · rw [sample_lines, if_neg (by simp)]
    norm_num [sample_by_number, numberLoop]
    decide
  · simp [Pkg.sample_lines, Pkg.linesample, Pkg.PyParam.val, Pkg.linesample_number]
    norm_num [sample_by_number, numberLoop]
  · simp [Pkg.sample_lines, Pkg.linesample, Pkg.PyParam.val, Pkg.linesample_number]
    norm_num [sample_by_number, numberLoop]
    decide

/-- C9 counterexample: the claim states the emitted text equals the original
line with exactly its trailing line-ending characters removed and all other
characters (including leading whitespace) preserved.  On the line
`"  hi\n"` that removal yields `"  hi"`, but the code prints
`line.strip()`, which also removes the leading spaces and yields `"hi"`. -/
theorem C9_strip_counterexample :
    sample_by_fraction 1 (fun _ => 0) ["  hi\n"] = ["hi"] ∧
    specTrimTrailingEOL "  hi\n" = "  hi" ∧ ("hi" : String) ≠ "  hi" :=
  ⟨by decide, by decide, by decide⟩

/-! Unfolding equation for one iteration of the reservoir loop. -/

lemma numberLoop_cons (number : Int) (u : Nat → ℚ) (line : String)
    (rest : List String) (read : Nat) (sel : List String) :
    numberLoop number u (line :: rest) read sel =
      if (sel.length : Int) < number then
        numberLoop number u rest (read + 1) (sel ++ [line])
      else if Int.floor (u (read + 1) * ((read + 1 : Nat) : ℚ)) < number - 1 then
        numberLoop number u rest (read + 1)
          (sel.eraseIdx (Int.floor (u (read + 1) * ((read + 1 : Nat) : ℚ))).toNat ++ [line])
      else
        numberLoop number u rest (read + 1) sel := by
  simp only [numberLoop]

/-- Every reachable reservoir is a sublist of the already processed input:
the initial fill appends in order, and a replacement deletes one entry and
appends the newest line, both of which preserve the sublist relation. -/
lemma numberLoop_sublist (number : Int) (u : Nat → ℚ) :
    ∀ (rest : List String) (read : Nat) (sel pre : List String),
      sel.Sublist pre → (numberLoop number u rest read sel).Sublist (pre ++ rest) := by
  intro rest
  induction rest with
  | nil => intro read sel pre h; simpa [numberLoop] using h
  | cons line rs ih =>
    intro read sel pre h
    rw [numberLoop_cons]
    have hstep : ∀ s2 : List String, s2.Sublist (pre ++ [line]) →
        (numberLoop number u rs (read + 1) s2).Sublist (pre ++ line :: rs) := by
      intro s2 hs2
      have := ih (read + 1) s2 (pre ++ [line]) hs2
      simpa using this
    split_ifs with h1 h2
    · exact hstep _ (h.append (List.Sublist.refl [line]))
    · exact hstep _ (((List.eraseIdx_sublist sel _).trans h).append (List.Sublist.refl [line]))
    · exact hstep _ (h.trans (List.sublist_append_left pre [line]))

/-- C3: for every input and every draw sequence, the reservoir sampler
emits its lines in the original arrival order — the final reservoir is a
sublist of the input, and the printed output is exactly that sublist with
each line stripped. -/
theorem C3_order_preserved (number : Int) (u : Nat → ℚ) (lines : List String) :
    (numberLoop number u lines 0 []).Sublist lines ∧
    sample_by_number number u lines = (numberLoop number u lines 0 []).map pyStrip := by
  refine ⟨?_, rfl⟩
  simpa using numberLoop_sublist number u lines 0 [] [] (List.Sublist.refl [])

/-- While the whole remaining input still fits, the loop only appends: the
final reservoir is the current one followed by the rest of the input. -/
lemma numberLoop_fill (number : Int) (u : Nat → ℚ) :
    ∀ (rest : List String) (read : Nat) (sel : List String),
      (sel.length : Int) + rest.length ≤ number →
      numberLoop number u rest read sel = sel ++ rest := by
  intro rest
  induction rest with
  | nil => intro read sel h; simp [numberLoop]
  | cons line rs ih =>
    intro read sel h
    simp only [List.length_cons] at h
    rw [numberLoop_cons, if_pos (by push_cast at h ⊢; omega)]
    rw [ih (read + 1) (sel ++ [line])
      (by simp only [List.length_append, List.length_cons, List.length_nil]; push_cast at h ⊢; omega)]
    simp

/-- With a nonpositive requested size the reservoir never fills and the
drawn index (which is nonnegative) never satisfies `index < number - 1`, so
the loop is the identity on the reservoir. -/
lemma numberLoop_nonpos (number : Int) (u : Nat → ℚ) (hn : number ≤ 0)
    (hu0 : ∀ n, 0 ≤ u n) :
    ∀ (rest : List String) (read : Nat) (sel : List String),
      numberLoop number u rest read sel = sel := by
  intro rest
  induction rest with
  | nil => intro read sel; rfl
  | cons line rs ih =>
    intro read sel
    rw [numberLoop_cons]
    have hidx : (0 : Int) ≤ Int.floor (u (read + 1) * ((read + 1 : Nat) : ℚ)) :=
      Int.floor_nonneg.mpr (mul_nonneg (hu0 _) (by positivity))
    rw [if_neg (by omega), if_neg (by omega)]
    exact ih (read + 1) sel

/-- For a positive requested size, each iteration keeps the invariant
`length = min(lines so far, k)`: a fill grows the reservoir by one while it
is below capacity, and a replacement deletes an in-range entry and appends
the new line, keeping the length at capacity. -/
lemma numberLoop_length_pos (number : Int) (u : Nat → ℚ) (hn : 1 ≤ number)
    (hu0 : ∀ n, 0 ≤ u n) :
    ∀ (rest : List String) (read : Nat) (sel : List String),
      sel.length ≤ number.toNat →
      (numberLoop number u rest read sel).length =
        min (sel.length + rest.length) number.toNat := by
  intro rest
  induction rest with
  | nil => intro read sel h; simp only [numberLoop, List.length_nil, Nat.add_zero]; omega
  | cons line rs ih =>
    intro read sel hsel
    rw [numberLoop_cons]
    set idx : Int := Int.floor (u (read + 1) * ((read + 1 : Nat) : ℚ)) with hidxdef
    have hidx0 : (0 : Int) ≤ idx := by
      rw [hidxdef]
      exact Int.floor_nonneg.mpr (mul_nonneg (hu0 _) (by positivity))
    split_ifs with h1 h2
    · rw [ih (read + 1) (sel ++ [line])
        (by simp only [List.length_append, List.length_cons, List.length_nil]; omega)]
      simp only [List.length_append, List.length_cons, List.length_nil]
      omega
    · have hlen : sel.length = number.toNat := by omega
      have hlt : idx.toNat < sel.length := by omega
      have herase : (sel.eraseIdx idx.toNat).length = sel.length - 1 :=
        List.length_eraseIdx_of_lt hlt
      rw [ih (read + 1) (sel.eraseIdx idx.toNat ++ [line])
        (by simp only [List.length_append, herase, List.length_cons, List.length_nil]; omega)]
      simp only [List.length_append, herase, List.length_cons, List.length_nil]
      omega
    · rw [ih (read + 1) sel hsel]
      simp only [List.length_cons]
      omega

/-- C4: for every input, requested size and draw sequence (draws in
`[0, 1)`), the reservoir sampler prints exactly `min(n, k)` lines; if the
input is shorter than the requested size the final reservoir is the full
input in order, and empty input gives empty output. -/
theorem C4_output_length (number : Int) (u : Nat → ℚ) (lines : List String)
    (hu : ValidDraws u) :
    (sample_by_number number u lines).length = min lines.length number.toNat ∧
    ((lines.length : Int) < number → numberLoop number u lines 0 [] = lines) ∧
    (lines = [] → sample_by_number number u lines = []) := by
  have hu0 : ∀ n, 0 ≤ u n := fun n => (hu n).1
  refine ⟨?_, ?_, ?_⟩
  · rw [sample_by_number, List.length_map]
    rcases le_or_lt number 0 with hn | hn
    · rw [numberLoop_nonpos number u hn hu0]
      simp only [List.length_nil]
      omega
    · rw [numberLoop_length_pos number u (by omega) hu0 lines 0 [] (by simp)]
      simp
  · intro hlt
    have := numberLoop_fill number u lines 0 []
      (by simp only [List.length_nil, Int.natCast_zero, zero_add]; omega)
    simpa using this
  · intro h
    subst h
    rfl

/-- Witness for `C4_output_length` at `k = 2`, input `["a"]`, all draws `0`. -/
theorem C4_output_length_witness :
    ValidDraws (fun _ => (0 : ℚ)) ∧
    ((sample_by_number 2 (fun _ => (0 : ℚ)) ["a"]).length
        = min (["a"] : List String).length (2 : Int).toNat ∧
      (((["a"] : List String).length : Int) < 2 →
        numberLoop 2 (fun _ => (0 : ℚ)) ["a"] 0 [] = ["a"]) ∧
      ((["a"] : List String) = [] →
        sample_by_number 2 (fun _ => (0 : ℚ)) ["a"] = [])) :=
  ⟨fun _ => by norm_num,
   C4_output_length 2 (fun _ => (0 : ℚ)) ["a"] (fun _ => by norm_num)⟩

/-- With requested size `1` and a full reservoir, the replacement condition
`index < 1 - 1 = 0` never holds for the nonnegative drawn index, so the
reservoir never changes again. -/
lemma numberLoop_one_fixed (u : Nat → ℚ) (hu0 : ∀ n, 0 ≤ u n) :
    ∀ (rest : List String) (read : Nat) (l : String),
      numberLoop 1 u rest read [l] = [l] := by
  intro rest
  induction rest with
  | nil => intro read l; rfl
  | cons line rs ih =>
    intro read l
    rw [numberLoop_cons]
    have hidx : (0 : Int) ≤ Int.floor (u (read + 1) * ((read + 1 : Nat) : ℚ)) :=
      Int.floor_nonneg.mpr (mul_nonneg (hu0 _) (by positivity))
    rw [if_neg (by simp), if_neg (by omega)]
    exact ih (read + 1) l

/-- C10: with `number = 1` the reservoir sampler keeps the first line of any
non-empty input for every draw sequence: the first line fills the
reservoir, and the replacement condition `index < number - 1 = 0` can never
hold afterwards, so the print loop emits exactly that line (stripped). -/
theorem C10_number_one_keeps_first (u : Nat → ℚ) (hu : ValidDraws u)
    (l : String) (rest : List String) :
    numberLoop 1 u (l :: rest) 0 [] = [l] ∧
    sample_by_number 1 u (l :: rest) = [pyStrip l] := by
  have hres : numberLoop 1 u (l :: rest) 0 [] = [l] := by
    rw [numberLoop_cons, if_pos (by norm_num)]
    simpa using numberLoop_one_fixed u (fun n => (hu n).1) rest 1 l
  refine ⟨hres, ?_⟩
  rw [sample_by_number, hres]
  rfl

/-- Witness for `C10_number_one_keeps_first` on input `["a", "b", "c"]` with
all draws `0`. -/
theorem C10_number_one_keeps_first_witness :
    ValidDraws (fun _ => (0 : ℚ)) ∧
    (numberLoop 1 (fun _ => (0 : ℚ)) ("a" :: ["b", "c"]) 0 [] = ["a"] ∧
      sample_by_number 1 (fun _ => (0 : ℚ)) ("a" :: ["b", "c"]) = [pyStrip "a"]) :=
  ⟨fun _ => by norm_num,
   C10_number_one_keeps_first (fun _ => (0 : ℚ)) (fun _ => by norm_num) "a" ["b", "c"]⟩

/-! Lemmas for the Bernoulli line filter. -/

lemma fractionLoop_sublist (f : ℚ) (u : Nat → ℚ) :
    ∀ (lines : List String) (i : Nat), (fractionLoop f u lines i).Sublist lines := by
  intro lines
  induction lines with
  | nil => intro i; simp [fractionLoop]
  | cons line rs ih =>
    intro i
    by_cases h : u i < f
    · simp only [fractionLoop, if_pos h]
      exact List.Sublist.cons₂ line (ih (i + 1))
    · simp only [fractionLoop, if_neg h]
      exact List.Sublist.cons line (ih (i + 1))

lemma fractionLoop_zero (u : Nat → ℚ) (hu0 : ∀ n, 0 ≤ u n) :
    ∀ (lines : List String) (i : Nat), fractionLoop 0 u lines i = [] := by
  intro lines
  induction lines with
  | nil => intro i; rfl
  | cons line rs ih =>
    intro i
    simp only [fractionLoop, if_neg (not_lt.mpr (hu0 i))]
    exact ih (i + 1)

lemma fractionLoop_one (u : Nat → ℚ) (hu1 : ∀ n, u n < 1) :
    ∀ (lines : List String) (i : Nat), fractionLoop 1 u lines i = lines := by
  intro lines
  induction lines with
  | nil => intro i; rfl
  | cons line rs ih =>
    intro i
    simp only [fractionLoop, if_pos (hu1 i)]
    rw [ih (i + 1)]

/-- C8: the Bernoulli filter selects a line iff its draw is strictly below
the probability (last conjunct: one loop step), keeps arrival order (the
selection is a sublist of the input), and the edge probabilities behave as
claimed: probability `0` selects nothing, probability `1` selects every
line (each draw being `< 1`). -/
theorem C8_bernoulli_filter (f : ℚ) (u : Nat → ℚ) (hu : ValidDraws u)
    (lines : List String) (line : String) (rest : List String) (i : Nat) :
    (fractionLoop f u lines 0).Sublist lines ∧
    (f = 0 → sample_by_fraction f u lines = []) ∧
    (f = 1 → fractionLoop f u lines 0 = lines) ∧
    fractionLoop f u (line :: rest) i =
      (if u i < f then [line] else []) ++ fractionLoop f u rest (i + 1) := by
  refine ⟨fractionLoop_sublist f u lines 0, ?_, ?_, ?_⟩
  · intro h
    subst h
    rw [sample_by_fraction, fractionLoop_zero u (fun n => (hu n).1)]
    rfl
  · intro h
    subst h
    exact fractionLoop_one u (fun n => (hu n).2) lines 0
  · by_cases h : u i < f
    · simp [fractionLoop, if_pos h]
    · simp [fractionLoop, if_neg h]

/-- Witness for `C8_bernoulli_filter` at probability `1`, input `["a"]`,
step input `"b" :: ["c"]` at draw index `5`, all draws `0`. -/
theorem C8_bernoulli_filter_witness :
    ValidDraws (fun _ => (0 : ℚ)) ∧
    ((fractionLoop 1 (fun _ => (0 : ℚ)) ["a"] 0).Sublist ["a"] ∧
      ((1 : ℚ) = 0 → sample_by_fraction 1 (fun _ => (0 : ℚ)) ["a"] = []) ∧
      ((1 : ℚ) = 1 → fractionLoop 1 (fun _ => (0 : ℚ)) ["a"] 0 = ["a"]) ∧
      fractionLoop 1 (fun _ => (0 : ℚ)) ("b" :: ["c"]) 5 =
        (if (fun _ => (0 : ℚ)) 5 < 1 then ["b"] else []) ++
          fractionLoop 1 (fun _ => (0 : ℚ)) ["c"] (5 + 1)) :=
  ⟨fun _ => by norm_num,
   C8_bernoulli_filter 1 (fun _ => (0 : ℚ)) (fun _ => by norm_num) ["a"] "b" ["c"] 5⟩

/-! Lemmas characterising Python `str.strip()`. -/

lemma mem_takeWhile_sat {α : Type} (p : α → Bool) :
    ∀ (l : List α) (a : α), a ∈ l.takeWhile p → p a = true := by
  intro l
  induction l with
  | nil => intro a h; simp at h
  | cons x xs ih =>
    intro a h
    rw [List.takeWhile_cons] at h
    by_cases hx : p x
    · rw [if_pos hx] at h
      rcases List.mem_cons.mp h with rfl | h2
      · exact hx
      · exact ih a h2
    · rw [if_neg hx] at h
      simp at h

lemma head_dropWhile_sat {α : Type} (p : α → Bool) :
    ∀ (l : List α) (a : α), (l.dropWhile p).head? = some a → p a = false := by
  intro l
  induction l with
  | nil => intro a h; simp at h
  | cons x xs ih =>
    intro a h
    rw [List.dropWhile_cons] at h
    by_cases hx : p x
    · rw [if_pos hx] at h
      exact ih a h
    · rw [if_neg hx] at h
      simp only [List.head?_cons, Option.some.injEq] at h
      subst h
      simpa using hx

/-- Any list splits as the kept core of a right-strip followed by the
removed all-`p` suffix. -/
lemma rev_strip_split {α : Type} (p : α → Bool) (r : List α) :
    r = (r.reverse.dropWhile p).reverse ++ (r.reverse.takeWhile p).reverse := by
  calc r = r.reverse.reverse := (List.reverse_reverse r).symm
    _ = (r.reverse.takeWhile p ++ r.reverse.dropWhile p).reverse := by
        rw [List.takeWhile_append_dropWhile]
    _ = (r.reverse.dropWhile p).reverse ++ (r.reverse.takeWhile p).reverse := by
        rw [List.reverse_append]

/-- C9 (amended): the text printed for a selected line in either mode is
`line.strip()`: the original line splits into an all-whitespace prefix, the
printed core and an all-whitespace suffix, and the core neither starts nor
ends with a whitespace character — so leading and trailing whitespace (not
only trailing line endings) is removed and the interior is preserved. -/
theorem C9_strip_behavior (s : String) (f : ℚ) (number : Int) (u : Nat → ℚ)
    (lines : List String) :
    (∃ pre post : List Char,
        s.data = pre ++ (pyStrip s).data ++ post ∧
        (∀ c ∈ pre, isPySpace c = true) ∧
        (∀ c ∈ post, isPySpace c = true)) ∧
    (∀ c, (pyStrip s).data.head? = some c → isPySpace c = false) ∧
    (∀ c, (pyStrip s).data.getLast? = some c → isPySpace c = false) ∧
    sample_by_fraction f u lines = (fractionLoop f u lines 0).map pyStrip ∧
    sample_by_number number u lines = (numberLoop number u lines 0 []).map pyStrip := by
  have hdata : (pyStrip s).data =
      ((s.data.dropWhile isPySpace).reverse.dropWhile isPySpace).reverse := rfl
  refine ⟨?_, ?_, ?_, rfl, rfl⟩
  · refine ⟨s.data.takeWhile isPySpace,
      ((s.data.dropWhile isPySpace).reverse.takeWhile isPySpace).reverse, ?_, ?_, ?_⟩
    · rw [hdata]
      conv_lhs => rw [← List.takeWhile_append_dropWhile isPySpace s.data,
        rev_strip_split isPySpace (s.data.dropWhile isPySpace)]
      rw [List.append_assoc]
    · intro c hc
      exact mem_takeWhile_sat isPySpace s.data c hc
    · intro c hc
      rw [List.mem_reverse] at hc
      exact mem_takeWhile_sat isPySpace _ c hc
  · intro c hc
    rw [hdata] at hc
    have hsplit := rev_strip_split isPySpace (s.data.dropWhile isPySpace)
    rcases hcore : ((s.data.dropWhile isPySpace).reverse.dropWhile isPySpace).reverse
      with _ | ⟨x, xs⟩
    · rw [hcore] at hc
      simp at hc
    · rw [hcore] at hc
      simp only [List.head?_cons, Option.some.injEq] at hc
      subst hc
      apply head_dropWhile_sat isPySpace s.data
      rw [hcore] at hsplit
      rw [hsplit]
      rfl
  · intro c hc
    rw [hdata] at hc
    rw [← List.head?_reverse, List.reverse_reverse] at hc
    exact head_dropWhile_sat isPySpace _ c hc

end Linesample
